import Mathlib

/-!
Verification of the polymorph launcher (mdbooth/polymorph).

This file gives a shallow embedding of the launcher's core pipeline —
template expansion, cache-path resolution (`getConfig` in `cmd/exec.go`),
the fetch closure with its tarball and binary fetchers
(`pkg/tarball/tarball.go`), and the top-level `runExec` control flow —
and proves/refutes the frozen specification claims about it.

External effects (filesystem, HTTP, `syscall.Exec`) are modelled by an
explicit filesystem value, an event trace, and outcome oracles passed in
as an environment, so every run of the embedded code is a pure
computation.
-/

deriving instance DecidableEq for Except

namespace Polymorph

/-! ## Model of the Go `path` standard library

`cmd/exec.go` and both fetchers build paths with `path.Join` and
`path.Base`.  `path.Join` joins its non-empty elements with `/` and then
applies `path.Clean` (lexical normalization: collapse repeated slashes,
drop `.` components, resolve `..` components against preceding
components, drop `..` at a root).  We model the path functions over
`List Char` and wrap them for `String`.
-/

/-- Split a character list on `/` (like `strings.Split` on "/").
The result is always non-empty. -/
def splitSlash : List Char → List (List Char)
  | [] => [[]]
  | c :: cs =>
    match splitSlash cs with
    | [] => [[c]]
    | w :: ws => if c = '/' then [] :: w :: ws else (c :: w) :: ws

/-- Join components with `/` (like `strings.Join` with separator "/"). -/
def intercalateSlash : List (List Char) → List Char
  | [] => []
  | [w] => w
  | w :: ws => w ++ '/' :: intercalateSlash ws

/-- One step of `path.Clean`'s component processing.  The stack is kept
in reverse order (most recent component first). -/
def cleanPush (rooted : Bool) (stack : List (List Char)) (c : List Char) :
    List (List Char) :=
  if c = [] ∨ c = ['.'] then stack
  else if c = ['.', '.'] then
    match stack with
    | [] => if rooted then [] else [['.', '.']]
    | top :: rest => if top = ['.', '.'] then c :: top :: rest else rest
  else c :: stack

/-- Process all components of a path, as `path.Clean` does. -/
def cleanFold (rooted : Bool) (cs : List (List Char)) : List (List Char) :=
  cs.foldl (cleanPush rooted) []

/-- Go `path.Clean` on a character list. -/
def cleanL (p : List Char) : List Char :=
  if p = [] then ['.']
  else
    let rooted := p.head? = some '/'
    let stack := cleanFold rooted (splitSlash p)
    let body := intercalateSlash stack.reverse
    if rooted then '/' :: body
    else if body = [] then ['.'] else body

/-- Go `path.Clean`. -/
def pathClean (s : String) : String := String.mk (cleanL s.data)

/-- Go `path.Join` on character lists: skip leading empty elements, join
the rest with `/`, and clean the result.  An all-empty argument list
yields the empty string. -/
def joinL : List (List Char) → List Char
  | [] => []
  | e :: rest => if e = [] then joinL rest else cleanL (intercalateSlash (e :: rest))

/-- Go `path.Join`. -/
def pathJoin (elems : List String) : String :=
  String.mk (joinL (elems.map String.data))

/-- Go `path.Base` on a character list: empty input gives `.`; otherwise
strip trailing slashes and take the last component; if nothing remains
the path was all slashes and the result is `/`. -/
def baseL (p : List Char) : List Char :=
  if p = [] then ['.']
  else
    let revStripped := p.reverse.dropWhile (fun c => c = '/')
    let seg := (revStripped.takeWhile (fun c => c ≠ '/')).reverse
    if seg = [] then ['/'] else seg

/-- Go `path.Base`. -/
def pathBase (s : String) : String := String.mk (baseL s.data)

/-! ## Model of `pkg/templates` (`ExpandTemplate`)

`templates.ExpandTemplate` parses `templateString` with Go
`text/template` and executes it against a `map[string]string`.  Template
parsing is external to the core, so a pattern is modelled in already
parsed form: either a syntax error or a list of literal/field segments.
Execution follows `text/template`'s default missing-key behaviour for
maps (option `missingkey=invalid`): a `{{.key}}` reference whose key is
absent from the map prints the string `<no value>` and execution
continues without error. -/

/-- One segment of a parsed `text/template` pattern. -/
inductive TemplateSeg
  | lit (s : String)
  | field (key : String)
deriving DecidableEq

/-- A pattern string as handed to `template.New("").Parse`: either it
fails to parse, or it parses to a segment list. -/
inductive TemplatePattern
  | invalidSyntax
  | segs (xs : List TemplateSeg)
deriving DecidableEq

/-- Error taxonomy for the embedded code.  Constructors correspond to
the wrapped error returns in the source; `fetchFailed` and `execFailed`
are the wrappings added by `runExec`. -/
inductive Err
  | templateSyntax
  | expandDirectoryErr
  | mkdirCacheErr
  | mkdirTempErr
  | noFetcher
  | expandURLTarball
  | expandURLBinary
  | downloadTarball (url : String)
  | downloadBinary (url : String)
  | gzipReaderErr
  | tarReadErr
  | mkdirEntryErr (target : String)
  | openEntryErr (target : String)
  | writeEntryErr (target : String)
  | closeEntryErr (target : String)
  | openBinaryErr (p : String)
  | writeBinaryErr (p : String)
  | closeBinaryErr (p : String)
  | renameTargetExists
  | renameOtherErr
  | execFailed (errnoIsENOENT : Bool)
  | fetchFailed (e : Err)
deriving DecidableEq

/-- First-match lookup in an association list, modelling Go map
indexing with the comma-ok idiom (`v, ok := m[k]`). -/
def lookupParam (params : List (String × String)) (k : String) : Option String :=
  match params with
  | [] => none
  | (a, b) :: rest => if a = k then some b else lookupParam rest k

/-- Render one segment against the parameter map.  A missing key renders
as `<no value>` (text/template default for maps). -/
def renderSeg (params : List (String × String)) : TemplateSeg → String
  | .lit s => s
  | .field k =>
    match lookupParam params k with
    | some v => v
    | none => "<no value>"

/-- `templates.ExpandTemplate`: parse error propagates; execution over a
string map never fails, concatenating the rendered segments. -/
def ExpandTemplate (pattern : TemplatePattern) (params : List (String × String)) :
    Except Err String :=
  match pattern with
  | .invalidSyntax => .error .templateSyntax
  | .segs xs => .ok (String.join (xs.map (renderSeg params)))

/-- The field keys a parsed pattern references. -/
def patternKeys : TemplatePattern → List String
  | .invalidSyntax => []
  | .segs xs => xs.filterMap fun s =>
      match s with
      | .field k => some k
      | .lit _ => none

/-! ## Filesystem model

Runs of the fetch code are modelled against an explicit filesystem
value: a list of directory and regular-file entries keyed by absolute
path strings.  `pathUnder root p` holds when `p` is `root` itself or
lexically below it. -/

/-- A filesystem entry: a directory or a regular file with content bytes
and permission bits. -/
inductive FSEntry
  | dir (p : String)
  | file (p : String) (content : List Nat) (mode : Nat)
deriving DecidableEq

/-- The path of an entry. -/
def FSEntry.path : FSEntry → String
  | .dir p => p
  | .file p _ _ => p

/-- A filesystem is a list of entries. -/
abbrev FS := List FSEntry

/-- `p` is `root` or lexically inside it. -/
def pathUnder (root p : String) : Bool :=
  p = root || (root ++ "/").data.isPrefixOf p.data

/-- `os.RemoveAll root`: drop every entry at or below `root`. -/
def removeAllFS (root : String) (fs : FS) : FS :=
  fs.filter fun e => !pathUnder root e.path

/-- Move a path from under `src` to under `dst` (helper for rename). -/
def movePath (src dst p : String) : String :=
  String.mk (dst.data ++ p.data.drop src.data.length)

/-- `os.Rename src dst` on success: every entry at or below `src` is
re-rooted at `dst`. -/
def renameFS (src dst : String) (fs : FS) : FS :=
  fs.map fun e =>
    match e with
    | .dir p => if pathUnder src p then .dir (movePath src dst p) else .dir p
    | .file p c m => if pathUnder src p then .file (movePath src dst p) c m else .file p c m

/-- `os.MkdirAll d` on success: add the directory if absent (parent
directories are elided in this model). -/
def mkdirAllFS (d : String) (fs : FS) : FS :=
  if fs.contains (.dir d) then fs else fs ++ [.dir d]

/-- Create/overwrite a regular file (`os.OpenFile` with `O_CREATE|O_WRONLY`
followed by writes). -/
def createFileFS (p : String) (content : List Nat) (mode : Nat) (fs : FS) : FS :=
  (fs.filter fun e => e.path ≠ p) ++ [.file p content mode]

/-- The entries of a filesystem at or below `root`. -/
def restrictUnder (root : String) (fs : FS) : FS :=
  fs.filter fun e => pathUnder root e.path

/-! ## HTTP, gzip and tar stream models -/

/-- An HTTP response as seen by the fetchers: `http.Get` returns it for
any status code; only transport failures return an error. -/
structure HTTPResponse where
  statusCode : Nat
  body : List Nat
deriving DecidableEq

/-- Outcome of `http.Get`. -/
inductive HTTPResult
  | transportError
  | response (r : HTTPResponse)
deriving DecidableEq

/-- A tar archive entry.  `otherEntry` stands for any type flag other
than `TypeDir`/`TypeReg`, which `untar`'s switch silently skips. -/
inductive TarEntry
  | dirEntry (name : String) (mode : Nat)
  | regEntry (name : String) (mode : Nat) (content : List Nat)
  | otherEntry (name : String)
deriving DecidableEq

/-- A decoded tar stream: the entries `tarReader.Next` yields in order,
then either a clean `io.EOF` or a decode error. -/
structure TarStream where
  entries : List TarEntry
  cleanEOF : Bool
deriving DecidableEq

/-- Which filesystem operation inside `untar`'s loop an oracle answer
refers to. -/
inductive UntarOp
  | mkdirOp
  | openOp
  | writeOp
  | closeOp
deriving DecidableEq

/-- Oracle for the filesystem operations performed while extracting
entry number `i` of a tar stream. -/
structure UntarEnv where
  opOk : Nat → UntarOp → Bool

/-- Observable events of a run: network requests, fetcher dispatch and
the launcher's exec/fetch steps. -/
inductive Event
  | httpGet (url : String)
  | tarballFetchStart
  | binaryFetchStart
  | execAttempt
  | fetchCall
deriving DecidableEq

/-! ## `untar` (pkg/tarball/tarball.go)

`untar` iterates `tarReader.Next()`; for a directory entry it runs
`os.MkdirAll(path.Join(dir, header.Name), mode)`, for a regular file it
opens `path.Join(dir, header.Name)` with `O_CREATE|O_WRONLY`, copies the
entry bytes and closes the file; any other entry kind falls through the
switch untouched.  Reaching `io.EOF` is success; any other `Next` error
aborts.  Note the target path goes through `path.Join`, i.e. through
`path.Clean`: a stored name with `..` segments can escape `dir`. -/

/-- The loop body of `untar`, indexed by the entry counter.  Returns the
result together with the filesystem after the performed operations.  A
failed write leaves the file created with empty content (the `O_CREATE`
open succeeded); a failed close leaves the fully written file. -/
def untarGo (dir : String) (env : UntarEnv) (cleanEOF : Bool) :
    Nat → List TarEntry → FS → Except Err Unit × FS
  | _, [], fs => (if cleanEOF then .ok () else .error .tarReadErr, fs)
  | i, e :: rest, fs =>
    match e with
    | .dirEntry name _mode =>
      let target := pathJoin [dir, name]
      if env.opOk i .mkdirOp then
        untarGo dir env cleanEOF (i + 1) rest (mkdirAllFS target fs)
      else (.error (.mkdirEntryErr target), fs)
    | .regEntry name mode content =>
      let target := pathJoin [dir, name]
      if !env.opOk i .openOp then (.error (.openEntryErr target), fs)
      else if !env.opOk i .writeOp then
        (.error (.writeEntryErr target), createFileFS target [] mode fs)
      else if !env.opOk i .closeOp then
        (.error (.closeEntryErr target), createFileFS target content mode fs)
      else untarGo dir env cleanEOF (i + 1) rest (createFileFS target content mode fs)
    | .otherEntry _ => untarGo dir env cleanEOF (i + 1) rest fs

/-- `untar(r, dir)` over a decoded stream. -/
def untar (dir : String) (stream : TarStream) (env : UntarEnv) (fs : FS) :
    Except Err Unit × FS :=
  untarGo dir env stream.cleanEOF 0 stream.entries fs

namespace Tarball

/-- `tarball.Fetcher`: the archive fetch spec, a URL pattern. -/
structure Fetcher where
  url : TemplatePattern
deriving DecidableEq

/-- Environment for one run of `tarball.Fetch`: the `http.Get` outcome,
the gzip decode of the response body (`none` models a
`gzip.NewReader` header error) and the extraction oracle. -/
structure Env where
  httpResult : HTTPResult
  gzipResult : Option TarStream
  untarEnv : UntarEnv

/-- `tarball.Fetch(fetcher, params, tempDir)`: expand the URL pattern,
GET it, gzip-decode the body and extract into `tempDir`.  The response
status code is never examined. -/
def Fetch (fetcher : Fetcher) (params : List (String × String)) (tempDir : String)
    (env : Env) (fs : FS) : Except Err Unit × FS × List Event :=
  match ExpandTemplate fetcher.url params with
  | .error _ => (.error .expandURLTarball, fs, [.tarballFetchStart])
  | .ok tarballURL =>
    match env.httpResult with
    | .transportError =>
      (.error (.downloadTarball tarballURL), fs, [.tarballFetchStart, .httpGet tarballURL])
    | .response _resp =>
      match env.gzipResult with
      | none => (.error .gzipReaderErr, fs, [.tarballFetchStart, .httpGet tarballURL])
      | some stream =>
        let r := untar tempDir stream env.untarEnv fs
        (r.1, r.2, [.tarballFetchStart, .httpGet tarballURL])

end Tarball

namespace Binary

/-- `binary.Fetcher`: the single-binary fetch spec, a URL pattern. -/
structure Fetcher where
  url : TemplatePattern
deriving DecidableEq

/-- Environment for one run of `binary.Fetch`: outcomes for the
`os.OpenFile`, `http.Get`, `io.Copy` and `Close` steps. -/
structure Env where
  openOk : Bool
  httpResult : HTTPResult
  copyOk : Bool
  closeOk : Bool
deriving DecidableEq

/-- `binary.Fetch(fetcher, params, tempDir, executable)`: expand the URL
pattern, open `path.Join(tempDir, executable)` with mode `0755`, GET the
URL and stream the body into the file.  The file is created before the
request; the response status code is never examined, so the body is
written verbatim whatever the status. -/
def Fetch (fetcher : Fetcher) (params : List (String × String))
    (tempDir executable : String) (env : Env) (fs : FS) :
    Except Err Unit × FS × List Event :=
  match ExpandTemplate fetcher.url params with
  | .error _ => (.error .expandURLBinary, fs, [.binaryFetchStart])
  | .ok binaryURL =>
    let filePath := pathJoin [tempDir, executable]
    if !env.openOk then (.error (.openBinaryErr filePath), fs, [.binaryFetchStart])
    else
      let fs1 := createFileFS filePath [] 0o755 fs
      match env.httpResult with
      | .transportError =>
        (.error (.downloadBinary binaryURL), fs1, [.binaryFetchStart, .httpGet binaryURL])
      | .response resp =>
        if !env.copyOk then
          (.error (.writeBinaryErr filePath), fs1, [.binaryFetchStart, .httpGet binaryURL])
        else
          let fs2 := createFileFS filePath resp.body 0o755 fs1
          if !env.closeOk then
            (.error (.closeBinaryErr filePath), fs2, [.binaryFetchStart, .httpGet binaryURL])
          else (.ok (), fs2, [.binaryFetchStart, .httpGet binaryURL])

end Binary

/-! ## `cmd/exec.go`: template record, `getConfig`, the fetch closure
and `runExec` -/

/-- The parsed template record (`ExecTemplate` in `cmd/exec.go`).  The
TOML decoding is external; mappings are association lists.  The two
fetch specs are pointer fields, `nil` when the TOML block is absent. -/
structure ExecTemplate where
  name : String
  directory : TemplatePattern
  params : List (String × String)
  executables : List (String × String)
  tarballFetcher : Option Tarball.Fetcher
  binaryFetcher : Option Binary.Fetcher
deriving DecidableEq

/-- The values `getConfig` computes before building the fetch closure:
the cache directories, the expanded directory pattern, the alias-resolved
executable name, and the returned executable path. -/
structure ConfigResult where
  directory : String
  execCacheDir : String
  versionedCacheDir : String
  executableBase : String
  executable : String
  execPath : String
deriving DecidableEq

/-- `getConfig` (pure part): expand the directory pattern with the
template's params, derive
`execCacheDir = path.Join(userCacheDir, "polymorph", name)`,
`versionedCacheDir = path.Join(execCacheDir, directory)`, resolve
`path.Base(executableName)` through the `executables` alias map
(identity when absent), and return
`path.Join(versionedCacheDir, executable)`.  Reading the template file
and `os.UserCacheDir` are external inputs here. -/
def getConfig (t : ExecTemplate) (userCacheDir executableName : String) :
    Except Err ConfigResult :=
  match ExpandTemplate t.directory t.params with
  | .error _ => .error .expandDirectoryErr
  | .ok directory =>
    let execCacheDir := pathJoin [userCacheDir, "polymorph", t.name]
    let versionedCacheDir := pathJoin [execCacheDir, directory]
    let executableBase := pathBase executableName
    let executable := (lookupParam t.executables executableBase).getD executableBase
    .ok { directory := directory
          execCacheDir := execCacheDir
          versionedCacheDir := versionedCacheDir
          executableBase := executableBase
          executable := executable
          execPath := pathJoin [versionedCacheDir, executable] }

/-- Outcome oracle for the `os.Rename(tempDir, versionedCacheDir)`
publication step. -/
inductive RenameOutcome
  | renamed
  | failTargetExists
  | failOther
deriving DecidableEq

/-- Environment for one run of the fetch closure built by `getConfig`:
outcomes for `os.MkdirAll`, `os.MkdirTemp` (the random name suffix on
success, `none` on failure), the two fetchers' environments, and the
rename outcome. -/
structure FetchEnv where
  mkdirCacheOk : Bool
  tempSuffix : Option String
  tarballEnv : Tarball.Env
  binaryEnv : Binary.Env
  renameOutcome : RenameOutcome

/-- The fetch closure built inside `getConfig`: create the cache dir,
create a temporary directory `execCacheDir/<directory><suffix>` (with
`defer os.RemoveAll(tempDir)`), dispatch on the fetch specs — the
`switch` tries the tarball fetcher first, then the binary fetcher, and
only when both are `nil` returns the error `no fetcher specified` — and
finally publish with `os.Rename(tempDir, versionedCacheDir)`, whose
error is returned as-is.  The deferred removal runs on every exit after
the temporary directory exists. -/
def fetcherRun (t : ExecTemplate) (cfg : ConfigResult) (env : FetchEnv) (fs : FS) :
    Except Err Unit × FS × List Event :=
  if !env.mkdirCacheOk then (.error .mkdirCacheErr, fs, [])
  else
    let fs0 := mkdirAllFS cfg.execCacheDir fs
    match env.tempSuffix with
    | none => (.error .mkdirTempErr, fs0, [])
    | some sfx =>
      let tempDir := cfg.execCacheDir ++ "/" ++ cfg.directory ++ sfx
      let fs1 := mkdirAllFS tempDir fs0
      let step :=
        match t.tarballFetcher with
        | some tf => Tarball.Fetch tf t.params tempDir env.tarballEnv fs1
        | none =>
          match t.binaryFetcher with
          | some bf => Binary.Fetch bf t.params tempDir cfg.executableBase env.binaryEnv fs1
          | none => (.error .noFetcher, fs1, [])
      match step with
      | (.error e, fs2, evs) => (.error e, removeAllFS tempDir fs2, evs)
      | (.ok _, fs2, evs) =>
        match env.renameOutcome with
        | .renamed =>
          (.ok (), removeAllFS tempDir (renameFS tempDir cfg.versionedCacheDir fs2), evs)
        | .failTargetExists => (.error .renameTargetExists, removeAllFS tempDir fs2, evs)
        | .failOther => (.error .renameOtherErr, removeAllFS tempDir fs2, evs)

/-- Outcome of one `syscall.Exec` call: on success the process image is
replaced and the launcher never resumes; otherwise an errno is
returned, of which only `ENOENT` is special to the launcher. -/
inductive ExecOutcome
  | replaced
  | failedENOENT
  | failedOther
deriving DecidableEq

/-- Environment for one `runExec` invocation: the two exec outcomes and
the fetch environment. -/
structure RunEnv where
  execOutcome1 : ExecOutcome
  fetchEnv : FetchEnv
  execOutcome2 : ExecOutcome

/-- Result of `runExec`: the process image was replaced (first or second
attempt), or the launcher returns a fatal error that the cobra `Run`
hook prints before `os.Exit(1)`. -/
inductive RunResult
  | replacedFirst
  | replacedSecond
  | fatal (e : Err)
deriving DecidableEq

/-- `runExec`: resolve via `getConfig`, attempt `syscall.Exec`; a
failure other than `ENOENT` returns immediately (wrapped); on `ENOENT`
call the fetch closure, whose failure returns (wrapped); then attempt
`syscall.Exec` once more, returning its wrapped error if it comes
back. -/
def runExec (t : ExecTemplate) (userCacheDir executableName : String)
    (env : RunEnv) (fs : FS) : RunResult × FS × List Event :=
  match getConfig t userCacheDir executableName with
  | .error e => (.fatal e, fs, [])
  | .ok cfg =>
    match env.execOutcome1 with
    | .replaced => (.replacedFirst, fs, [.execAttempt])
    | .failedOther => (.fatal (.execFailed false), fs, [.execAttempt])
    | .failedENOENT =>
      match fetcherRun t cfg env.fetchEnv fs with
      | (.error fe, fs2, fevs) =>
        (.fatal (.fetchFailed fe), fs2, .execAttempt :: .fetchCall :: fevs)
      | (.ok _, fs2, fevs) =>
        match env.execOutcome2 with
        | .replaced => (.replacedSecond, fs2, .execAttempt :: .fetchCall :: fevs ++ [.execAttempt])
        | .failedENOENT => (.fatal (.execFailed true), fs2, .execAttempt :: .fetchCall :: fevs ++ [.execAttempt])
        | .failedOther => (.fatal (.execFailed false), fs2, .execAttempt :: .fetchCall :: fevs ++ [.execAttempt])

/-- Count of fetch-closure invocations in a trace. -/
def countFetchCalls (evs : List Event) : Nat :=
  (evs.filter fun e => e = Event.fetchCall).length

/-- Count of network requests in a trace. -/
def countHttpGets (evs : List Event) : Nat :=
  (evs.filter fun e =>
    match e with
    | Event.httpGet _ => true
    | _ => false).length

/-! ## Spec-side resolved-path definitions (for the refinement claim)

These follow the specification's words (§3 "Resolved paths" and §6
"Filesystem layout produced"), independently of `getConfig`'s code:
`cacheRoot` = OS user cache directory + `polymorph` + `name`;
`versionDir` = `cacheRoot` / expanded directory; `executablePath` =
`versionDir` / alias-resolved executable name, where the requested
name's last path segment is resolved through `executableAliases` with
identity as the default. -/

/-- Spec §3: `cacheRoot` = OS-standard user cache directory +
`polymorph` + `name`. -/
def specCacheRoot (userCacheDir name : String) : String :=
  pathJoin [userCacheDir, "polymorph", name]

/-- Spec §3: `versionDir` = `cacheRoot` / expanded directory pattern. -/
def specVersionDir (userCacheDir name expandedDirectory : String) : String :=
  pathJoin [specCacheRoot userCacheDir name, expandedDirectory]

/-- Spec §4.2: the requested executable's base name (last path segment)
resolved through `executableAliases`; unmapped names pass through. -/
def specResolveAlias (aliases : List (String × String)) (requested : String) : String :=
  (lookupParam aliases (pathBase requested)).getD (pathBase requested)

/-- Spec §3/§6: `executablePath` = `versionDir` / alias-resolved
executable name. -/
def specExecutablePath (userCacheDir name expandedDirectory : String)
    (aliases : List (String × String)) (requested : String) : String :=
  pathJoin [specVersionDir userCacheDir name expandedDirectory,
            specResolveAlias aliases requested]

/-- `p` ends in `suf` (string-suffix sense). -/
def endsIn (p suf : String) : Bool :=
  suf.data.isSuffixOf p.data

/-- A plain file name: non-empty, not `.` or `..`, and containing no
slash — the only names `path.Clean` passes through a join unchanged. -/
def simpleName (s : String) : Bool :=
  !s.data.isEmpty && decide (s.data ≠ ['.']) && decide (s.data ≠ ['.', '.']) &&
    !s.data.contains '/'

/-- The target paths `untar` would write for a list of tar entries
(skipped entry kinds contribute none). -/
def untarTargets (dir : String) : List TarEntry → List String
  | [] => []
  | .dirEntry n _ :: rest => pathJoin [dir, n] :: untarTargets dir rest
  | .regEntry n _ _ :: rest => pathJoin [dir, n] :: untarTargets dir rest
  | .otherEntry _ :: rest => untarTargets dir rest

/-- All of a stream's extraction targets stay inside `dir` (no
parent-directory escape through `path.Clean`). -/
def tarTargetsUnder (dir : String) (s : TarStream) : Bool :=
  (untarTargets dir s.entries).all fun tg => pathUnder dir tg

/-! ## Concrete fixtures (from the spec's §8 scenario) -/

/-- Parameters `{"version": "1.2.3"}`. -/
def sampleParams : List (String × String) := [("version", "1.2.3")]

/-- A template with only the tarball fetch spec present. -/
def tarOnlyTemplate : ExecTemplate :=
  { name := "grep-like"
    directory := .segs [.lit "v", .field "version"]
    params := sampleParams
    executables := []
    tarballFetcher := some ⟨.segs [.lit "https://example.test/tb.tgz"]⟩
    binaryFetcher := none }

/-- The same template with both fetch specs present. -/
def bothTemplate : ExecTemplate :=
  { tarOnlyTemplate with
    binaryFetcher := some ⟨.segs [.lit "https://example.test/bin"]⟩ }

/-- The same template with neither fetch spec present. -/
def neitherTemplate : ExecTemplate :=
  { tarOnlyTemplate with tarballFetcher := none, binaryFetcher := none }

/-- The configuration `getConfig` computes for the sample template with
user cache dir `/cache` and requested executable `grep-like`. -/
def sampleCfg : ConfigResult :=
  { directory := "v1.2.3"
    execCacheDir := "/cache/polymorph/grep-like"
    versionedCacheDir := "/cache/polymorph/grep-like/v1.2.3"
    executableBase := "grep-like"
    executable := "grep-like"
    execPath := "/cache/polymorph/grep-like/v1.2.3/grep-like" }

/-- The configuration `getConfig` computes for requested executable
`.` (whose `path.Base` is `.`). -/
def dotCfg : ConfigResult :=
  { directory := "v1.2.3"
    execCacheDir := "/cache/polymorph/grep-like"
    versionedCacheDir := "/cache/polymorph/grep-like/v1.2.3"
    executableBase := "."
    executable := "."
    execPath := "/cache/polymorph/grep-like/v1.2.3" }

/-- Extraction oracle where every filesystem operation succeeds. -/
def allOkUntar : UntarEnv := ⟨fun _ _ => true⟩

/-- A successful HTTP 200 response. -/
def okResponse : HTTPResult := .response ⟨200, [1, 2, 3]⟩

/-- Tarball environment: 200 response, valid gzip, one regular entry. -/
def okTarballEnv : Tarball.Env :=
  ⟨okResponse, some ⟨[.regEntry "grep-like" 0o755 [1]], true⟩, allOkUntar⟩

/-- Binary environment where every step succeeds. -/
def okBinaryEnv : Binary.Env := ⟨true, okResponse, true, true⟩

/-- Fetch environment where every step, including the rename, succeeds. -/
def okFetchEnv : FetchEnv := ⟨true, some "XYZ", okTarballEnv, okBinaryEnv, .renamed⟩

/-- Fetch environment that loses the publish race: the final rename
fails because the target directory already exists. -/
def raceEnv : FetchEnv := { okFetchEnv with renameOutcome := .failTargetExists }

/-- Tarball environment whose archive holds a directory entry escaping
the temporary directory via `..`, followed by a decode error. -/
def evilTarballEnv : Tarball.Env :=
  ⟨okResponse, some ⟨[.dirEntry "../v1.2.3" 0o755], false⟩, allOkUntar⟩

/-- Fetch environment delivering the escaping archive. -/
def evilFetchEnv : FetchEnv := { okFetchEnv with tarballEnv := evilTarballEnv }

/-- A 404 response whose body is the bytes of `No`. -/
def resp404 : HTTPResponse := ⟨404, [78, 111]⟩

/-- Binary environment receiving the 404 response, all I/O succeeding. -/
def env404 : Binary.Env := ⟨true, .response resp404, true, true⟩

/-- A template carrying an executable alias `foo ↦ foo-v2`. -/
def aliasTemplate : ExecTemplate :=
  { tarOnlyTemplate with executables := [("foo", "foo-v2")] }

/-- The configuration `getConfig` computes for the alias template and
requested executable `foo`. -/
def aliasCfg : ConfigResult :=
  { directory := "v1.2.3"
    execCacheDir := "/cache/polymorph/grep-like"
    versionedCacheDir := "/cache/polymorph/grep-like/v1.2.3"
    executableBase := "foo"
    executable := "foo-v2"
    execPath := "/cache/polymorph/grep-like/v1.2.3/foo-v2" }

/-! ## Helper lemmas: shapes of errors and traces -/

/-- The errors `untar` can produce. -/
def isUntarErr : Err → Bool
  | .tarReadErr => true
  | .mkdirEntryErr _ => true
  | .openEntryErr _ => true
  | .writeEntryErr _ => true
  | .closeEntryErr _ => true
  | _ => false

/-! ## Sanity checks of the path model against Go `path` semantics -/

example : pathClean "/a//b/./c/../d" = "/a/b/d" := by decide
example : pathClean "a/.." = "." := by decide
example : pathClean "/.." = "/" := by decide
example : pathClean "a/../../b" = "../b" := by decide
example : pathClean "a/b/" = "a/b" := by decide
example : pathJoin ["/c/p/t/v1AB", "../v1/evil"] = "/c/p/t/v1/evil" := by decide
example : pathJoin ["a", "b", "c"] = "a/b/c" := by decide
example : pathJoin ["", "b"] = "b" := by decide
example : pathJoin ["a", ""] = "a" := by decide
example : pathBase "a/b/c" = "c" := by decide
example : pathBase "" = "." := by decide
example : pathBase "///" = "/" := by decide
example : pathBase "a/b/" = "b" := by decide
example : pathBase "." = "." := by decide

theorem untarGo_error_shape (dir : String) (env : UntarEnv) (ceof : Bool) :
    ∀ (es : List TarEntry) (i : Nat) (fs : FS) (e : Err),
      (untarGo dir env ceof i es fs).1 = Except.error e → isUntarErr e = true := by
  intro es
  induction es with
  | nil =>
    intro i fs e h
    by_cases hc : ceof <;> simp [untarGo, hc] at h
    subst h; rfl
  | cons hd tl ih =>
    intro i fs e h
    cases hd with
    | dirEntry n m =>
      by_cases hk : env.opOk i .mkdirOp <;> simp [untarGo, hk] at h
      · exact ih _ _ _ h
      · subst h; rfl
    | regEntry n m c =>
      by_cases h1 : env.opOk i .openOp <;> by_cases h2 : env.opOk i .writeOp <;>
        by_cases h3 : env.opOk i .closeOp <;> simp [untarGo, h1, h2, h3] at h <;>
        first
          | exact ih _ _ _ h
          | (subst h; rfl)
    | otherEntry n =>
      simp only [untarGo] at h
      exact ih _ _ _ h

theorem untar_error_shape (dir : String) (stream : TarStream) (env : UntarEnv)
    (fs : FS) (e : Err) (h : (untar dir stream env fs).1 = Except.error e) :
    isUntarErr e = true :=
  untarGo_error_shape dir env stream.cleanEOF stream.entries 0 fs e h

/-- The trace of `tarball.Fetch` is the start event, optionally followed
by exactly one network request. -/
theorem tarballFetch_trace_shape (tf : Tarball.Fetcher) (params : List (String × String))
    (tempDir : String) (env : Tarball.Env) (fs : FS) :
    (Tarball.Fetch tf params tempDir env fs).2.2 = [Event.tarballFetchStart] ∨
    ∃ u, (Tarball.Fetch tf params tempDir env fs).2.2 =
      [Event.tarballFetchStart, Event.httpGet u] := by
  unfold Tarball.Fetch
  cases ExpandTemplate tf.url params with
  | error e => exact Or.inl rfl
  | ok u =>
    cases env.httpResult with
    | transportError => exact Or.inr ⟨u, rfl⟩
    | response r =>
      cases env.gzipResult with
      | none => exact Or.inr ⟨u, rfl⟩
      | some s => exact Or.inr ⟨u, rfl⟩

/-- The trace of `binary.Fetch` is the start event, optionally followed
by exactly one network request. -/
theorem binaryFetch_trace_shape (bf : Binary.Fetcher) (params : List (String × String))
    (tempDir exe : String) (env : Binary.Env) (fs : FS) :
    (Binary.Fetch bf params tempDir exe env fs).2.2 = [Event.binaryFetchStart] ∨
    ∃ u, (Binary.Fetch bf params tempDir exe env fs).2.2 =
      [Event.binaryFetchStart, Event.httpGet u] := by
  unfold Binary.Fetch
  cases ExpandTemplate bf.url params with
  | error e => exact Or.inl rfl
  | ok u =>
    by_cases ho : env.openOk <;> simp only [ho, Bool.not_true, Bool.not_false]
    · cases env.httpResult with
      | transportError => exact Or.inr ⟨u, rfl⟩
      | response r =>
        by_cases hc : env.copyOk <;> by_cases hk : env.closeOk <;>
          simp only [hc, hk, Bool.not_true, Bool.not_false] <;> exact Or.inr ⟨u, rfl⟩
    · exact Or.inl rfl

theorem countFetchCalls_nil : countFetchCalls [] = 0 := rfl

theorem countFetchCalls_cons (e : Event) (l : List Event) :
    countFetchCalls (e :: l) =
      (if e = Event.fetchCall then 1 else 0) + countFetchCalls l := by
  by_cases h : e = Event.fetchCall <;>
    simp [countFetchCalls, List.filter_cons, h, Nat.add_comm]

theorem countFetchCalls_append (l₁ l₂ : List Event) :
    countFetchCalls (l₁ ++ l₂) = countFetchCalls l₁ + countFetchCalls l₂ := by
  simp [countFetchCalls, List.filter_append]

/-- No fetcher emits a `fetchCall` event. -/
theorem countFetchCalls_fetcherRun (t : ExecTemplate) (cfg : ConfigResult)
    (env : FetchEnv) (fs : FS) :
    countFetchCalls (fetcherRun t cfg env fs).2.2 = 0 := by
  unfold fetcherRun
  by_cases hm : env.mkdirCacheOk <;> simp only [hm, Bool.not_true, Bool.not_false]
  · cases env.tempSuffix with
    | none => rfl
    | some sfx =>
      cases ht : t.tarballFetcher with
      | some tf =>
        simp only
        rcases hfr : Tarball.Fetch tf t.params
            (cfg.execCacheDir ++ "/" ++ cfg.directory ++ sfx) env.tarballEnv
            (mkdirAllFS (cfg.execCacheDir ++ "/" ++ cfg.directory ++ sfx)
              (mkdirAllFS cfg.execCacheDir fs)) with ⟨res, fs2, evs⟩
        have hshape := tarballFetch_trace_shape tf t.params
          (cfg.execCacheDir ++ "/" ++ cfg.directory ++ sfx) env.tarballEnv
          (mkdirAllFS (cfg.execCacheDir ++ "/" ++ cfg.directory ++ sfx)
            (mkdirAllFS cfg.execCacheDir fs))
        rw [hfr] at hshape
        have hevs : countFetchCalls evs = 0 := by
          rcases hshape with h | ⟨u, h⟩ <;> simp only at h <;> subst h <;>
            simp [countFetchCalls_cons, countFetchCalls_nil]
        cases res with
        | error e => simpa using hevs
        | ok u =>
          cases env.renameOutcome <;> simpa using hevs
      | none =>
        cases hb : t.binaryFetcher with
        | some bf =>
          simp only
          rcases hfr : Binary.Fetch bf t.params
              (cfg.execCacheDir ++ "/" ++ cfg.directory ++ sfx) cfg.executableBase
              env.binaryEnv
              (mkdirAllFS (cfg.execCacheDir ++ "/" ++ cfg.directory ++ sfx)
                (mkdirAllFS cfg.execCacheDir fs)) with ⟨res, fs2, evs⟩
          have hshape := binaryFetch_trace_shape bf t.params
            (cfg.execCacheDir ++ "/" ++ cfg.directory ++ sfx) cfg.executableBase
            env.binaryEnv
            (mkdirAllFS (cfg.execCacheDir ++ "/" ++ cfg.directory ++ sfx)
              (mkdirAllFS cfg.execCacheDir fs))
          rw [hfr] at hshape
          have hevs : countFetchCalls evs = 0 := by
            rcases hshape with h | ⟨u, h⟩ <;> simp only at h <;> subst h <;>
              simp [countFetchCalls_cons, countFetchCalls_nil]
          cases res with
          | error e => simpa using hevs
          | ok u =>
            cases env.renameOutcome <;> simpa using hevs
        | none => rfl
  · rfl

/-- Errors `tarball.Fetch` can produce: URL expansion, download,
gzip-header, or an extraction error. -/
theorem tarballFetch_error_shape (tf : Tarball.Fetcher) (params : List (String × String))
    (tempDir : String) (env : Tarball.Env) (fs : FS) (e : Err)
    (h : (Tarball.Fetch tf params tempDir env fs).1 = Except.error e) :
    e = Err.expandURLTarball ∨ (∃ u, e = Err.downloadTarball u) ∨
    e = Err.gzipReaderErr ∨ isUntarErr e = true := by
  unfold Tarball.Fetch at h
  cases hx : ExpandTemplate tf.url params with
  | error e2 =>
    rw [hx] at h
    simp only [Except.error.injEq] at h
    exact Or.inl h.symm
  | ok u =>
    rw [hx] at h
    cases hr : env.httpResult with
    | transportError =>
      rw [hr] at h
      simp only [Except.error.injEq] at h
      exact Or.inr (Or.inl ⟨u, h.symm⟩)
    | response r =>
      rw [hr] at h
      cases hg : env.gzipResult with
      | none =>
        rw [hg] at h
        simp only [Except.error.injEq] at h
        exact Or.inr (Or.inr (Or.inl h.symm))
      | some s =>
        rw [hg] at h
        simp only at h
        exact Or.inr (Or.inr (Or.inr (untar_error_shape _ _ _ _ _ h)))

/-- When `http.Get` delivers a response — whatever its status code —
`tarball.Fetch` never reports a download (network) error. -/
theorem tarballFetch_response_no_download (tf : Tarball.Fetcher)
    (params : List (String × String)) (tempDir : String) (env : Tarball.Env)
    (fs : FS) (r : HTTPResponse) (hr : env.httpResult = HTTPResult.response r)
    (u : String) :
    (Tarball.Fetch tf params tempDir env fs).1 ≠ Except.error (Err.downloadTarball u) := by
  intro h
  rcases tarballFetch_error_shape tf params tempDir env fs _ h with h1 | ⟨u2, h1⟩ | h1 | h1
  · cases h1
  · unfold Tarball.Fetch at h
    cases hx : ExpandTemplate tf.url params with
    | error e2 => rw [hx] at h; cases h
    | ok u3 =>
      rw [hx, hr] at h
      cases hg : env.gzipResult with
      | none => rw [hg] at h; cases h
      | some s =>
        rw [hg] at h
        simp only at h
        have := untar_error_shape _ _ _ _ _ h
        cases this
  · cases h1
  · cases h1

/-- With the tarball spec present, the trace of the fetch closure is
empty or the tarball fetcher's trace; in particular the binary fetcher
never starts. -/
theorem fetcherRun_tarball_trace (t : ExecTemplate) (cfg : ConfigResult)
    (env : FetchEnv) (fs : FS) (tf : Tarball.Fetcher)
    (ht : t.tarballFetcher = some tf) :
    (fetcherRun t cfg env fs).2.2 = [] ∨
    (fetcherRun t cfg env fs).2.2 = [Event.tarballFetchStart] ∨
    ∃ u, (fetcherRun t cfg env fs).2.2 =
      [Event.tarballFetchStart, Event.httpGet u] := by
  unfold fetcherRun
  by_cases hm : env.mkdirCacheOk <;> simp only [hm, Bool.not_true, Bool.not_false]
  · cases env.tempSuffix with
    | none => exact Or.inl rfl
    | some sfx =>
      simp only [ht]
      rcases hfr : Tarball.Fetch tf t.params
          (cfg.execCacheDir ++ "/" ++ cfg.directory ++ sfx) env.tarballEnv
          (mkdirAllFS (cfg.execCacheDir ++ "/" ++ cfg.directory ++ sfx)
            (mkdirAllFS cfg.execCacheDir fs)) with ⟨res, fs2, evs⟩
      have hshape := tarballFetch_trace_shape tf t.params
        (cfg.execCacheDir ++ "/" ++ cfg.directory ++ sfx) env.tarballEnv
        (mkdirAllFS (cfg.execCacheDir ++ "/" ++ cfg.directory ++ sfx)
          (mkdirAllFS cfg.execCacheDir fs))
      rw [hfr] at hshape
      simp only at hshape
      cases res with
      | error e =>
        rcases hshape with h | ⟨u, h⟩
        · exact Or.inr (Or.inl (by simpa using h))
        · exact Or.inr (Or.inr ⟨u, by simpa using h⟩)
      | ok v =>
        cases env.renameOutcome <;>
          rcases hshape with h | ⟨u, h⟩ <;>
            first
              | exact Or.inr (Or.inl (by simpa using h))
              | exact Or.inr (Or.inr ⟨u, by simpa using h⟩)
  · exact Or.inl rfl

/-! ## Claim C10 -/

/-- C10: when both the tarball and the binary fetch spec are present,
the fetch dispatch behaves exactly as if the binary spec were absent
(the `switch` tries the tarball case first), the binary fetcher never
starts, and no `no fetcher specified` error is raised. -/
theorem C10_both_specs_tarball_priority (t : ExecTemplate) (tf : Tarball.Fetcher)
    (bf : Binary.Fetcher) (ht : t.tarballFetcher = some tf)
    (hb : t.binaryFetcher = some bf) (cfg : ConfigResult) (env : FetchEnv) (fs : FS) :
    fetcherRun t cfg env fs = fetcherRun { t with binaryFetcher := none } cfg env fs ∧
    Event.binaryFetchStart ∉ (fetcherRun t cfg env fs).2.2 ∧
    (fetcherRun t cfg env fs).1 ≠ Except.error Err.noFetcher := by
  refine ⟨?_, ?_, ?_⟩
  · obtain ⟨n, dpat, prms, exs, tff, bff⟩ := t
    simp only at ht hb
    subst ht hb
    rfl
  · rcases fetcherRun_tarball_trace t cfg env fs tf ht with h | h | ⟨u, h⟩ <;>
      rw [h] <;> simp
  · intro h
    unfold fetcherRun at h
    by_cases hm : env.mkdirCacheOk
    · simp only [hm, Bool.not_true, Bool.false_eq_true, if_false] at h
      cases hs : env.tempSuffix with
      | none => rw [hs] at h; cases h
      | some sfx =>
        rw [hs] at h
        simp only [ht] at h
        rcases hfr : Tarball.Fetch tf t.params
            (cfg.execCacheDir ++ "/" ++ cfg.directory ++ sfx) env.tarballEnv
            (mkdirAllFS (cfg.execCacheDir ++ "/" ++ cfg.directory ++ sfx)
              (mkdirAllFS cfg.execCacheDir fs)) with ⟨res, fs2, evs⟩
        rw [hfr] at h
        cases res with
        | error e =>
          dsimp only at h
          simp only [Except.error.injEq] at h
          subst h
          have hfe : (Tarball.Fetch tf t.params
              (cfg.execCacheDir ++ "/" ++ cfg.directory ++ sfx) env.tarballEnv
              (mkdirAllFS (cfg.execCacheDir ++ "/" ++ cfg.directory ++ sfx)
                (mkdirAllFS cfg.execCacheDir fs))).1 = Except.error Err.noFetcher := by
            rw [hfr]
          rcases tarballFetch_error_shape _ _ _ _ _ _ hfe with h1 | ⟨u, h1⟩ | h1 | h1 <;>
            cases h1
        | ok v =>
          cases hro : env.renameOutcome <;> rw [hro] at h <;> dsimp only at h <;> cases h
    · simp only [hm, Bool.not_false, if_true] at h
      cases h

/-- C10 witness: a concrete template with both specs runs the tarball
path end to end with no configuration error and no binary fetch. -/
theorem C10_witness :
    Event.binaryFetchStart ∉ (fetcherRun bothTemplate sampleCfg okFetchEnv []).2.2 ∧
    (fetcherRun bothTemplate sampleCfg okFetchEnv []).1 ≠ Except.error Err.noFetcher :=
  ⟨(C10_both_specs_tarball_priority bothTemplate
      ⟨.segs [.lit "https://example.test/tb.tgz"]⟩
      ⟨.segs [.lit "https://example.test/bin"]⟩ rfl rfl sampleCfg okFetchEnv []).2.1,
   (C10_both_specs_tarball_priority bothTemplate
      ⟨.segs [.lit "https://example.test/tb.tgz"]⟩
      ⟨.segs [.lit "https://example.test/bin"]⟩ rfl rfl sampleCfg okFetchEnv []).2.2⟩

/-! ## Claim C1 -/

/-- C1 counterexample: a template with BOTH fetch specs present is not
rejected — the fetch closure succeeds and performs a network request
(the tarball download), contradicting "rejected with ConfigurationError
before any network access". -/
theorem C1_both_specs_counterexample :
    getConfig bothTemplate "/cache" "grep-like" = Except.ok sampleCfg ∧
    (fetcherRun bothTemplate sampleCfg okFetchEnv []).1 = Except.ok () ∧
    countHttpGets (fetcherRun bothTemplate sampleCfg okFetchEnv []).2.2 = 1 := by
  refine ⟨by decide, by decide, by decide⟩

/-- C1 (amended): only a template with NEITHER fetch spec is rejected:
the fetch closure fails — with the configuration error `no fetcher
specified` once it reaches the dispatch — and performs no network
access.  (A template with both specs present is not rejected; the
tarball fetcher takes priority, see C10.) -/
theorem C1_neither_spec_rejected (t : ExecTemplate) (cfg : ConfigResult)
    (env : FetchEnv) (fs : FS) (ht : t.tarballFetcher = none)
    (hb : t.binaryFetcher = none) :
    (fetcherRun t cfg env fs).1 ≠ Except.ok () ∧
    countHttpGets (fetcherRun t cfg env fs).2.2 = 0 ∧
    (env.mkdirCacheOk = true → ∀ sfx, env.tempSuffix = some sfx →
      (fetcherRun t cfg env fs).1 = Except.error Err.noFetcher) := by
  unfold fetcherRun
  by_cases hm : env.mkdirCacheOk
  · simp only [hm, Bool.not_true, Bool.false_eq_true, if_false]
    cases hs : env.tempSuffix with
    | none =>
      refine ⟨(by intro h; cases h), rfl, ?_⟩
      intro _ sfx hsfx
      cases hsfx
    | some sfx =>
      simp only [ht, hb]
      refine ⟨(by intro h; cases h), rfl, ?_⟩
      intro _ sfx2 hsfx
      trivial
  · simp only [hm, Bool.not_false, if_true]
    refine ⟨(by intro h; cases h), rfl, ?_⟩
    intro hmm
    cases hmm

/-- C1 witness: the neither-spec template concretely yields the
`no fetcher specified` error with zero network requests. -/
theorem C1_witness :
    countHttpGets (fetcherRun neitherTemplate sampleCfg okFetchEnv []).2.2 = 0 ∧
    (fetcherRun neitherTemplate sampleCfg okFetchEnv []).1 =
      Except.error Err.noFetcher :=
  ⟨(C1_neither_spec_rejected neitherTemplate sampleCfg okFetchEnv [] rfl rfl).2.1,
   (C1_neither_spec_rejected neitherTemplate sampleCfg okFetchEnv [] rfl rfl).2.2
     rfl "XYZ" rfl⟩

/-! ## Claim C2 -/

/-- C2 counterexample: when the final rename fails because `versionDir`
already exists (lost publish race), the fetch returns that error rather
than success. -/
theorem C2_lost_race_counterexample :
    (fetcherRun tarOnlyTemplate sampleCfg raceEnv []).1 =
      Except.error Err.renameTargetExists := by decide

/-- C2 (amended): a fetch whose final rename fails because `versionDir`
already exists never reports success — `os.Rename`'s error is returned
as-is, so the lost race surfaces as a fetch error. -/
theorem C2_lost_race_error_propagated (t : ExecTemplate) (cfg : ConfigResult)
    (env : FetchEnv) (fs : FS)
    (h : env.renameOutcome = RenameOutcome.failTargetExists) :
    (fetcherRun t cfg env fs).1 ≠ Except.ok () := by
  unfold fetcherRun
  by_cases hm : env.mkdirCacheOk
  case neg =>
    simp only [hm, Bool.not_false, if_true]
    intro hc; cases hc
  case pos =>
  simp only [hm, Bool.not_true, Bool.false_eq_true, if_false]
  cases hs : env.tempSuffix with
  | none => intro hc; cases hc
  | some sfx =>
      simp only
      rcases hstep : (match t.tarballFetcher with
        | some tf => Tarball.Fetch tf t.params
            (cfg.execCacheDir ++ "/" ++ cfg.directory ++ sfx) env.tarballEnv
            (mkdirAllFS (cfg.execCacheDir ++ "/" ++ cfg.directory ++ sfx)
              (mkdirAllFS cfg.execCacheDir fs))
        | none =>
          match t.binaryFetcher with
          | some bf => Binary.Fetch bf t.params
              (cfg.execCacheDir ++ "/" ++ cfg.directory ++ sfx) cfg.executableBase
              env.binaryEnv
              (mkdirAllFS (cfg.execCacheDir ++ "/" ++ cfg.directory ++ sfx)
                (mkdirAllFS cfg.execCacheDir fs))
          | none => (Except.error Err.noFetcher,
              mkdirAllFS (cfg.execCacheDir ++ "/" ++ cfg.directory ++ sfx)
                (mkdirAllFS cfg.execCacheDir fs), ([] : List Event))) with ⟨res, fs2, evs⟩
      rw [hstep]
      cases res with
      | error e => intro hc; cases hc
      | ok v => rw [h]; intro hc; cases hc

/-- C2 witness: the amended statement at the concrete race fixture. -/
theorem C2_witness :
    (fetcherRun tarOnlyTemplate sampleCfg raceEnv []).1 ≠ Except.ok () :=
  C2_lost_race_error_propagated tarOnlyTemplate sampleCfg raceEnv [] rfl

/-! ## Claim C3 -/

/-- C3 counterexample: expanding a pattern that references the key
`version` against an empty parameter map succeeds, producing the string
`<no value>` — it does not fail with a resolution error. -/
theorem C3_missing_key_counterexample :
    lookupParam [] "version" = none ∧
    ExpandTemplate (TemplatePattern.segs [TemplateSeg.field "version"]) [] =
      Except.ok "<no value>" :=
  ⟨rfl, rfl⟩

/-- C3 (amended): expansion of a parsable pattern referencing a key
absent from the parameter map still succeeds, rendering `<no value>`
for the missing reference (Go text/template's default missing-key
behaviour for maps); only unparsable patterns fail. -/
theorem C3_missing_key_renders_no_value (xs : List TemplateSeg)
    (params : List (String × String)) (k : String)
    (_hk : k ∈ patternKeys (TemplatePattern.segs xs))
    (hmiss : lookupParam params k = none) :
    ExpandTemplate (TemplatePattern.segs xs) params =
      Except.ok (String.join (xs.map (renderSeg params))) ∧
    renderSeg params (TemplateSeg.field k) = "<no value>" := by
  refine ⟨rfl, ?_⟩
  simp [renderSeg, hmiss]

/-- C3 witness: the amended statement at the concrete missing-key
input. -/
theorem C3_witness :
    ExpandTemplate (TemplatePattern.segs [TemplateSeg.field "version"]) [] =
      Except.ok (String.join ([TemplateSeg.field "version"].map (renderSeg []))) ∧
    renderSeg [] (TemplateSeg.field "version") = "<no value>" :=
  C3_missing_key_renders_no_value [TemplateSeg.field "version"] [] "version"
    (by decide) rfl

/-! ## Claim C4 -/

/-- C4 counterexample: `binary.Fetch` receiving a 404 response installs
the response body as the executable's content and returns success — no
network error is reported for the non-success status. -/
theorem C4_status_ignored_counterexample :
    resp404.statusCode = 404 ∧
    (Binary.Fetch ⟨.segs [.lit "https://example.test/bin"]⟩ [] "/tmp/t" "tool"
      env404 []).1 = Except.ok () ∧
    FSEntry.file "/tmp/t/tool" resp404.body 0o755 ∈
      (Binary.Fetch ⟨.segs [.lit "https://example.test/bin"]⟩ [] "/tmp/t" "tool"
        env404 []).2.1 := by
  refine ⟨rfl, by decide, by decide⟩

/-- C4 (amended): only transport failures are reported as network
errors.  The response status code is never examined: whenever `http.Get`
returns a response — success or not — `binary.Fetch` streams the body
into the target file and succeeds, and `tarball.Fetch` proceeds to gzip
decoding without ever raising a download error. -/
theorem C4_status_never_checked (bf : Binary.Fetcher)
    (params : List (String × String)) (tempDir exe : String) (env : Binary.Env)
    (url : String) (hurl : ExpandTemplate bf.url params = Except.ok url)
    (r : HTTPResponse) (hresp : env.httpResult = HTTPResult.response r)
    (hopen : env.openOk = true) (hcopy : env.copyOk = true)
    (hclose : env.closeOk = true) (fs : FS) :
    (Binary.Fetch bf params tempDir exe env fs).1 = Except.ok () ∧
    FSEntry.file (pathJoin [tempDir, exe]) r.body 0o755 ∈
      (Binary.Fetch bf params tempDir exe env fs).2.1 ∧
    (∀ (tf : Tarball.Fetcher) (tenv : Tarball.Env) (fs2 : FS) (u : String),
      tenv.httpResult = HTTPResult.response r →
      (Tarball.Fetch tf params tempDir tenv fs2).1 ≠
        Except.error (Err.downloadTarball u)) := by
  refine ⟨?_, ?_, ?_⟩
  · simp [Binary.Fetch, hurl, hresp, hopen, hcopy, hclose]
  · simp [Binary.Fetch, hurl, hresp, hopen, hcopy, hclose, createFileFS]
  · intro tf tenv fs2 u hr
    exact tarballFetch_response_no_download tf params tempDir tenv fs2 r hr u

/-- C4 witness: the amended statement at the 404 fixture. -/
theorem C4_witness :
    (Binary.Fetch ⟨.segs [.lit "https://example.test/bin"]⟩ [] "/tmp/t" "tool"
      env404 []).1 = Except.ok () ∧
    FSEntry.file (pathJoin ["/tmp/t", "tool"]) resp404.body 0o755 ∈
      (Binary.Fetch ⟨.segs [.lit "https://example.test/bin"]⟩ [] "/tmp/t" "tool"
        env404 []).2.1 :=
  ⟨(C4_status_never_checked ⟨.segs [.lit "https://example.test/bin"]⟩ []
      "/tmp/t" "tool" env404 "https://example.test/bin" rfl resp404 rfl rfl rfl
      rfl []).1,
   (C4_status_never_checked ⟨.segs [.lit "https://example.test/bin"]⟩ []
      "/tmp/t" "tool" env404 "https://example.test/bin" rfl resp404 rfl rfl rfl
      rfl []).2.1⟩

/-! ## Claim C5 -/

/-- C5: a first exec attempt failing with anything other than `ENOENT`
terminates the launcher fatally with that exec error and no fetch (and
no network access) is attempted; moreover, in every run whatsoever, a
fetch only ever happens after a first exec failure classified
`ENOENT`. -/
theorem C5_non_enoent_exec_is_fatal_without_fetch (t : ExecTemplate)
    (userCacheDir requested : String) (env : RunEnv) (fs : FS) (cfg : ConfigResult)
    (hok : getConfig t userCacheDir requested = Except.ok cfg)
    (h1 : env.execOutcome1 = ExecOutcome.failedOther) :
    (runExec t userCacheDir requested env fs).1 =
      RunResult.fatal (Err.execFailed false) ∧
    countFetchCalls (runExec t userCacheDir requested env fs).2.2 = 0 ∧
    (∀ env2 : RunEnv, 0 < countFetchCalls (runExec t userCacheDir requested env2 fs).2.2 →
      env2.execOutcome1 = ExecOutcome.failedENOENT) := by
  refine ⟨?_, ?_, ?_⟩
  · unfold runExec
    rw [hok, h1]
  · unfold runExec
    rw [hok, h1]
    rfl
  · intro env2 hpos
    unfold runExec at hpos
    rw [hok] at hpos
    cases h2 : env2.execOutcome1 with
    | replaced => rw [h2] at hpos; cases hpos
    | failedOther => rw [h2] at hpos; cases hpos
    | failedENOENT => rfl

/-- C5 witness: concrete permission-denied-style first exec failure. -/
theorem C5_witness :
    (runExec tarOnlyTemplate "/cache" "grep-like"
      ⟨ExecOutcome.failedOther, okFetchEnv, ExecOutcome.replaced⟩ []).1 =
      RunResult.fatal (Err.execFailed false) ∧
    countFetchCalls (runExec tarOnlyTemplate "/cache" "grep-like"
      ⟨ExecOutcome.failedOther, okFetchEnv, ExecOutcome.replaced⟩ []).2.2 = 0 :=
  ⟨(C5_non_enoent_exec_is_fatal_without_fetch tarOnlyTemplate "/cache" "grep-like"
      ⟨ExecOutcome.failedOther, okFetchEnv, ExecOutcome.replaced⟩ [] sampleCfg
      (by decide) rfl).1,
   (C5_non_enoent_exec_is_fatal_without_fetch tarOnlyTemplate "/cache" "grep-like"
      ⟨ExecOutcome.failedOther, okFetchEnv, ExecOutcome.replaced⟩ [] sampleCfg
      (by decide) rfl).2.1⟩

/-! ## Claim C6 -/

/-- C6: when the fetch succeeds but the second exec attempt fails — for
any reason, `ENOENT` included — the launcher reports a fatal exec error;
the trace holds exactly one fetch invocation, and no run of the launcher
ever invokes the fetch closure more than once. -/
theorem C6_fetch_success_second_exec_failure_is_fatal (t : ExecTemplate)
    (userCacheDir requested : String) (env : RunEnv) (fs : FS) (cfg : ConfigResult)
    (hok : getConfig t userCacheDir requested = Except.ok cfg)
    (h1 : env.execOutcome1 = ExecOutcome.failedENOENT)
    (hfetch : (fetcherRun t cfg env.fetchEnv fs).1 = Except.ok ())
    (h2 : env.execOutcome2 ≠ ExecOutcome.replaced) :
    (∃ b, (runExec t userCacheDir requested env fs).1 =
      RunResult.fatal (Err.execFailed b)) ∧
    countFetchCalls (runExec t userCacheDir requested env fs).2.2 = 1 ∧
    (∀ env2 : RunEnv,
      countFetchCalls (runExec t userCacheDir requested env2 fs).2.2 ≤ 1) := by
  rcases hfr : fetcherRun t cfg env.fetchEnv fs with ⟨res, fs2, fevs⟩
  rw [hfr] at hfetch
  dsimp only at hfetch
  subst hfetch
  have hfevs : countFetchCalls fevs = 0 := by
    have := countFetchCalls_fetcherRun t cfg env.fetchEnv fs
    rw [hfr] at this
    exact this
  refine ⟨?_, ?_, ?_⟩
  · unfold runExec
    rw [hok, h1]
    dsimp only
    rw [hfr]
    dsimp only
    cases h3 : env.execOutcome2 with
    | replaced => exact absurd h3 h2
    | failedENOENT => exact ⟨true, rfl⟩
    | failedOther => exact ⟨false, rfl⟩
  · unfold runExec
    rw [hok, h1]
    dsimp only
    rw [hfr]
    dsimp only
    cases h3 : env.execOutcome2 with
    | replaced => exact absurd h3 h2
    | failedENOENT =>
      dsimp only
      rw [countFetchCalls_append, countFetchCalls_cons, countFetchCalls_cons,
        hfevs]
      rfl
    | failedOther =>
      dsimp only
      rw [countFetchCalls_append, countFetchCalls_cons, countFetchCalls_cons,
        hfevs]
      rfl
  · intro env2
    unfold runExec
    rw [hok]
    dsimp only
    cases h3 : env2.execOutcome1 with
    | replaced => dsimp only; decide
    | failedOther => dsimp only; decide
    | failedENOENT =>
      dsimp only
      rcases hfr2 : fetcherRun t cfg env2.fetchEnv fs with ⟨res2, fsb, fevs2⟩
      have hfevs2 : countFetchCalls fevs2 = 0 := by
        have h0 := countFetchCalls_fetcherRun t cfg env2.fetchEnv fs
        rw [hfr2] at h0
        exact h0
      cases res2 with
      | error e =>
        dsimp only
        rw [countFetchCalls_cons, countFetchCalls_cons, hfevs2]
        decide
      | ok v =>
        cases env2.execOutcome2 <;>
          (dsimp only
           rw [countFetchCalls_append, countFetchCalls_cons, countFetchCalls_cons,
             hfevs2]
           decide)

/-- C6 witness: fetch succeeds, second exec still fails with `ENOENT`;
the run is fatal with exactly one fetch. -/
theorem C6_witness :
    (∃ b, (runExec tarOnlyTemplate "/cache" "grep-like"
      ⟨ExecOutcome.failedENOENT, okFetchEnv, ExecOutcome.failedENOENT⟩ []).1 =
        RunResult.fatal (Err.execFailed b)) ∧
    countFetchCalls (runExec tarOnlyTemplate "/cache" "grep-like"
      ⟨ExecOutcome.failedENOENT, okFetchEnv, ExecOutcome.failedENOENT⟩ []).2.2 = 1 :=
  ⟨(C6_fetch_success_second_exec_failure_is_fatal tarOnlyTemplate "/cache"
      "grep-like" ⟨ExecOutcome.failedENOENT, okFetchEnv, ExecOutcome.failedENOENT⟩
      [] sampleCfg (by decide) rfl (by decide) (by decide)).1,
   (C6_fetch_success_second_exec_failure_is_fatal tarOnlyTemplate "/cache"
      "grep-like" ⟨ExecOutcome.failedENOENT, okFetchEnv, ExecOutcome.failedENOENT⟩
      [] sampleCfg (by decide) rfl (by decide) (by decide)).2.1⟩

/-! ## Claim C8 -/

/-- C8: the executable path `getConfig` returns is exactly the layout
the spec prescribes: user cache dir joined with the fixed `polymorph`
segment, the template name, the expanded directory pattern, and the
alias-resolved executable name (and likewise for the version directory
and cache root). -/
theorem C8_resolved_path_layout (t : ExecTemplate) (userCacheDir requested : String)
    (cfg : ConfigResult) (hok : getConfig t userCacheDir requested = Except.ok cfg) :
    cfg.execPath =
      specExecutablePath userCacheDir t.name cfg.directory t.executables requested ∧
    cfg.versionedCacheDir = specVersionDir userCacheDir t.name cfg.directory ∧
    cfg.execCacheDir = specCacheRoot userCacheDir t.name ∧
    ExpandTemplate t.directory t.params = Except.ok cfg.directory := by
  unfold getConfig at hok
  cases hd : ExpandTemplate t.directory t.params with
  | error e => rw [hd] at hok; cases hok
  | ok d =>
    rw [hd] at hok
    dsimp only at hok
    cases hok
    refine ⟨?_, rfl, rfl, rfl⟩
    unfold specExecutablePath specVersionDir specCacheRoot specResolveAlias
    rfl

/-- C8 witness: the layout at the concrete sample template. -/
theorem C8_witness :
    sampleCfg.execPath =
      specExecutablePath "/cache" tarOnlyTemplate.name sampleCfg.directory
        tarOnlyTemplate.executables "grep-like" ∧
    sampleCfg.versionedCacheDir =
      specVersionDir "/cache" tarOnlyTemplate.name sampleCfg.directory :=
  ⟨(C8_resolved_path_layout tarOnlyTemplate "/cache" "grep-like" sampleCfg
      (by decide)).1,
   (C8_resolved_path_layout tarOnlyTemplate "/cache" "grep-like" sampleCfg
      (by decide)).2.1⟩

/-! ## Lemmas about the path model (for the alias-resolution claim) -/

theorem splitSlash_ne_nil : ∀ l : List Char, splitSlash l ≠ []
  | [] => by simp [splitSlash]
  | c :: cs => by
    unfold splitSlash
    cases h : splitSlash cs with
    | nil => simp
    | cons w ws => by_cases hc : c = '/' <;> simp [hc]

theorem splitSlash_cons (c : Char) (cs : List Char) :
    splitSlash (c :: cs) =
      match splitSlash cs with
      | [] => [[c]]
      | w :: ws => if c = '/' then [] :: w :: ws else (c :: w) :: ws := rfl

theorem splitSlash_append :
    ∀ a b : List Char, splitSlash (a ++ '/' :: b) = splitSlash a ++ splitSlash b := by
  intro a
  induction a with
  | nil =>
    intro b
    cases h : splitSlash b with
    | nil => exact absurd h (splitSlash_ne_nil b)
    | cons w ws =>
      show splitSlash ('/' :: b) = [[]] ++ w :: ws
      rw [splitSlash_cons, h]
      simp
  | cons c cs ih =>
    intro b
    cases h1 : splitSlash cs with
    | nil => exact absurd h1 (splitSlash_ne_nil cs)
    | cons w ws =>
      rw [List.cons_append, splitSlash_cons, ih b, h1, splitSlash_cons, h1]
      by_cases hc : c = '/' <;> simp [hc, List.cons_append]

theorem splitSlash_no_slash :
    ∀ l : List Char, '/' ∉ l → splitSlash l = [l] := by
  intro l
  induction l with
  | nil => intro _; rfl
  | cons c cs ih =>
    intro h
    have hc : c ≠ '/' := fun he => h (he ▸ List.mem_cons_self c cs)
    have hcs : '/' ∉ cs := fun hm => h (List.mem_cons_of_mem c hm)
    rw [splitSlash_cons, ih hcs]
    simp [hc]

theorem joinL_cons (e : List Char) (rest : List (List Char)) :
    joinL (e :: rest) =
      if e = [] then joinL rest else cleanL (intercalateSlash (e :: rest)) := rfl

theorem intercalateSlash_pair (a b : List Char) :
    intercalateSlash [a, b] = a ++ '/' :: b := rfl

theorem cleanPush_simple (rooted : Bool) (st : List (List Char)) (x : List Char)
    (h1 : x ≠ []) (h2 : x ≠ ['.']) (h3 : x ≠ ['.', '.']) :
    cleanPush rooted st x = x :: st := by
  simp [cleanPush, h1, h2, h3]

theorem intercalateSlash_append_last :
    ∀ (ws : List (List Char)) (w : List Char),
      ∃ pre, intercalateSlash (ws ++ [w]) = pre ++ w := by
  intro ws
  induction ws with
  | nil => intro w; exact ⟨[], rfl⟩
  | cons v vs ih =>
    intro w
    rcases ih w with ⟨pre, hpre⟩
    cases vs with
    | nil => exact ⟨v ++ ['/'], by simp [intercalateSlash]⟩
    | cons v2 vs2 =>
      refine ⟨v ++ '/' :: pre, ?_⟩
      show intercalateSlash (v :: v2 :: (vs2 ++ [w])) = (v ++ '/' :: pre) ++ w
      have hstep : intercalateSlash (v :: v2 :: (vs2 ++ [w])) =
          v ++ '/' :: intercalateSlash (v2 :: (vs2 ++ [w])) := rfl
      rw [hstep]
      have hpre2 : intercalateSlash (v2 :: (vs2 ++ [w])) = pre ++ w := hpre
      rw [hpre2]
      simp

theorem cleanL_append_simple (d x : List Char) (hd : d ≠ [])
    (h1 : x ≠ []) (h2 : x ≠ ['.']) (h3 : x ≠ ['.', '.']) (h4 : '/' ∉ x) :
    ∃ pre, cleanL (d ++ '/' :: x) = pre ++ x := by
  have hne : d ++ '/' :: x ≠ [] := by
    cases d with
    | nil => exact absurd rfl hd
    | cons a as => simp
  unfold cleanL
  rw [if_neg hne]
  dsimp only
  rw [splitSlash_append d x, splitSlash_no_slash x h4]
  unfold cleanFold
  rw [List.foldl_append]
  rw [List.foldl_cons, List.foldl_nil]
  rw [cleanPush_simple _ _ _ h1 h2 h3]
  rw [List.reverse_cons]
  rcases intercalateSlash_append_last
    (List.foldl
      (cleanPush (decide ((d ++ '/' :: x).head? = some '/'))) []
      (splitSlash d)).reverse x with ⟨pre, hpre⟩
  rw [hpre]
  have hbody : pre ++ x ≠ [] := by
    intro hcontra
    exact h1 (List.append_eq_nil.mp hcontra).2
  by_cases hr : (d ++ '/' :: x).head? = some '/'
  · rw [if_pos hr]
    exact ⟨'/' :: pre, rfl⟩
  · rw [if_neg hr, if_neg hbody]
    exact ⟨pre, rfl⟩

theorem cleanL_simple_id (x : List Char) (h1 : x ≠ []) (h2 : x ≠ ['.'])
    (h3 : x ≠ ['.', '.']) (h4 : '/' ∉ x) : cleanL x = x := by
  unfold cleanL
  rw [if_neg h1]
  dsimp only
  rw [splitSlash_no_slash x h4]
  unfold cleanFold
  rw [List.foldl_cons, List.foldl_nil]
  rw [cleanPush_simple _ _ _ h1 h2 h3]
  obtain ⟨c, cs, rfl⟩ : ∃ c cs, x = c :: cs := by
    cases x with
    | nil => exact absurd rfl h1
    | cons c cs => exact ⟨c, cs, rfl⟩
  have hc : c ≠ '/' := fun he => h4 (he ▸ List.mem_cons_self c cs)
  have hr : ¬((c :: cs).head? = some '/') := by
    simp only [List.head?_cons, Option.some.injEq]
    exact hc
  rw [if_neg hr]
  rw [List.reverse_singleton]
  have hbody : intercalateSlash [c :: cs] = c :: cs := rfl
  rw [hbody, if_neg h1]

/-- A list whose `isEmpty` is `false` is not nil. -/
theorem ne_nil_of_isEmpty_eq_false {l : List Char} (h : l.isEmpty = false) :
    l ≠ [] := by
  cases l with
  | nil => cases h
  | cons a as => exact List.cons_ne_nil a as

/-- `contains` returning `false` means non-membership. -/
theorem not_mem_of_contains_eq_false {l : List Char} {a : Char}
    (h : l.contains a = false) : a ∉ l := by
  simpa using h

/-- Joining a plain file name onto any directory string with `path.Join`
yields a path that ends in that name: `path.Clean` keeps the final
component intact. -/
theorem endsIn_pathJoin_simple (d x : String) (hx : simpleName x = true) :
    endsIn (pathJoin [d, x]) x = true := by
  have hparts := hx
  simp only [simpleName, Bool.and_eq_true, Bool.not_eq_true', decide_eq_true_eq]
    at hparts
  obtain ⟨⟨⟨hempty, h2⟩, h3⟩, hcont⟩ := hparts
  have h1 : x.data ≠ [] := ne_nil_of_isEmpty_eq_false hempty
  have h4 : '/' ∉ x.data := not_mem_of_contains_eq_false hcont
  unfold pathJoin endsIn
  rw [List.isSuffixOf_iff_suffix]
  show x.data <:+ joinL [d.data, x.data]
  by_cases hd : d.data = []
  · rw [joinL_cons, if_pos hd, joinL_cons, if_neg h1]
    have hstep3 : intercalateSlash [x.data] = x.data := rfl
    rw [hstep3, cleanL_simple_id x.data h1 h2 h3 h4]
  · rw [joinL_cons, if_neg hd, intercalateSlash_pair]
    rcases cleanL_append_simple d.data x.data hd h1 h2 h3 h4 with ⟨pre, hpre⟩
    rw [hpre]
    exact List.suffix_append pre x.data

/-! ## Claim C9 -/

/-- C9 counterexample: requesting the executable name `.` — whose
`path.Base` is `.` and which has no alias entry — resolves to a path
that does NOT end in the unchanged base name: `path.Join` cleans the
trailing `.` away, so the resolved path is the bare version directory. -/
theorem C9_dot_name_counterexample :
    getConfig tarOnlyTemplate "/cache" "." = Except.ok dotCfg ∧
    pathBase "." = "." ∧
    lookupParam tarOnlyTemplate.executables "." = none ∧
    endsIn dotCfg.execPath "." = false := by
  refine ⟨by decide, by decide, rfl, by decide⟩

/-- C9 (amended): the resolver takes the request's last path segment
(`path.Base`) and resolves it through the alias map, unmapped names
passing through unchanged; whenever the resulting name is a plain file
name (non-empty, not `.` or `..`, no slash) the resolved executable
path ends in it — both for mapped and for unmapped names.  (For
degenerate names such as `.` the final `path.Join` cleans the component
away, hence the restriction.) -/
theorem C9_alias_resolution (t : ExecTemplate) (userCacheDir requested : String)
    (cfg : ConfigResult) (hok : getConfig t userCacheDir requested = Except.ok cfg)
    (hsimple : simpleName cfg.executable = true) :
    cfg.executableBase = pathBase requested ∧
    cfg.executable =
      (lookupParam t.executables (pathBase requested)).getD (pathBase requested) ∧
    endsIn cfg.execPath cfg.executable = true := by
  unfold getConfig at hok
  cases hd : ExpandTemplate t.directory t.params with
  | error e => rw [hd] at hok; cases hok
  | ok d =>
    rw [hd] at hok
    dsimp only at hok
    cases hok
    exact ⟨rfl, rfl, endsIn_pathJoin_simple _ _ hsimple⟩

/-- C9 witness: the amended statement at the alias fixture — requesting
`foo` under alias `foo ↦ foo-v2` yields a path ending in `foo-v2`. -/
theorem C9_witness :
    aliasCfg.executable =
      (lookupParam aliasTemplate.executables (pathBase "foo")).getD
        (pathBase "foo") ∧
    endsIn aliasCfg.execPath aliasCfg.executable = true :=
  ⟨(C9_alias_resolution aliasTemplate "/cache" "foo" aliasCfg (by decide)
      (by decide)).2.1,
   (C9_alias_resolution aliasTemplate "/cache" "foo" aliasCfg (by decide)
      (by decide)).2.2⟩

/-! ## Lemmas about `pathUnder` and the filesystem model (for the
atomicity claim) -/

theorem string_ext {a b : String} (h : a.data = b.data) : a = b := by
  cases a
  cases b
  exact congrArg String.mk h

theorem pathUnder_iff (root p : String) :
    pathUnder root p = true ↔ p = root ∨ (root ++ "/").data <+: p.data := by
  simp [pathUnder, Bool.or_eq_true, decide_eq_true_eq, List.isPrefixOf_iff_prefix]

/-- Two separated roots cannot both contain a path: if neither of `a`,
`b` lies at or under the other, nothing under `b` is under `a`. -/
theorem pathUnder_cross {a b : String} (hab : pathUnder a b = false)
    (hba : pathUnder b a = false) {p : String} (hp : pathUnder b p = true) :
    pathUnder a p = false := by
  by_contra hcontra
  have hap : pathUnder a p = true := by
    cases hq : pathUnder a p with
    | false => exact absurd hq hcontra
    | true => rfl
  rcases (pathUnder_iff b p).mp hp with hpb | hpb <;>
    rcases (pathUnder_iff a p).mp hap with hpa | hpa
  · -- p = b and p = a: then b = a, so pathUnder a b holds
    have hc2 : pathUnder a b = true := by
      apply (pathUnder_iff a b).mpr
      exact Or.inl (hpb ▸ hpa ▸ rfl)
    exact absurd hab (by simp [hc2])
  · -- p = b and (a ++ "/") prefixes p: then (a ++ "/") prefixes b
    have hc2 : pathUnder a b = true := by
      apply (pathUnder_iff a b).mpr
      exact Or.inr (hpb ▸ hpa)
    exact absurd hab (by simp [hc2])
  · -- (b ++ "/") prefixes p and p = a: then (b ++ "/") prefixes a
    have hc2 : pathUnder b a = true := by
      apply (pathUnder_iff b a).mpr
      exact Or.inr (hpa ▸ hpb)
    exact absurd hba (by simp [hc2])
  · -- both strict: the two slash-terminated prefixes are comparable
    have hadata : (a ++ "/").data = a.data ++ ['/'] := by
      rw [String.data_append]
    have hbdata : (b ++ "/").data = b.data ++ ['/'] := by
      rw [String.data_append]
    rcases List.prefix_or_prefix_of_prefix hpa hpb with hcmp | hcmp
    · -- (a ++ "/").data prefixes (b ++ "/").data
      rw [hadata, hbdata] at hcmp
      rcases List.prefix_concat_iff.mp hcmp with heq | hlt
      · -- a.data ++ ['/'] = b.data ++ ['/']: a = b
        have hdata : a.data = b.data := (List.append_inj' heq rfl).1
        have hc2 : pathUnder a b = true := by
          apply (pathUnder_iff a b).mpr
          exact Or.inl (string_ext hdata.symm)
        exact absurd hab (by simp [hc2])
      · -- a.data ++ ['/'] prefixes b.data: b lies strictly inside a
        have hc2 : pathUnder a b = true := by
          apply (pathUnder_iff a b).mpr
          refine Or.inr ?_
          rw [hadata]
          exact hlt
        exact absurd hab (by simp [hc2])
    · -- symmetric: (b ++ "/").data prefixes (a ++ "/").data
      rw [hadata, hbdata] at hcmp
      rcases List.prefix_concat_iff.mp hcmp with heq | hlt
      · have hdata : b.data = a.data := (List.append_inj' heq rfl).1
        have hc2 : pathUnder b a = true := by
          apply (pathUnder_iff b a).mpr
          exact Or.inl (string_ext hdata.symm)
        exact absurd hba (by simp [hc2])
      · have hc2 : pathUnder b a = true := by
          apply (pathUnder_iff b a).mpr
          refine Or.inr ?_
          rw [hbdata]
          exact hlt
        exact absurd hba (by simp [hc2])

theorem restrictUnder_append (r : String) (fs1 fs2 : FS) :
    restrictUnder r (fs1 ++ fs2) = restrictUnder r fs1 ++ restrictUnder r fs2 := by
  simp [restrictUnder, List.filter_append]

theorem restrictUnder_single_not {r : String} {e : FSEntry}
    (h : pathUnder r e.path = false) : restrictUnder r [e] = [] := by
  simp [restrictUnder, List.filter, h]

theorem restrictUnder_mkdirAll {r d : String} (h : pathUnder r d = false) (fs : FS) :
    restrictUnder r (mkdirAllFS d fs) = restrictUnder r fs := by
  unfold mkdirAllFS
  by_cases hc : fs.contains (FSEntry.dir d) = true
  · rw [if_pos hc]
  · rw [if_neg hc, restrictUnder_append,
      restrictUnder_single_not (e := FSEntry.dir d) h, List.append_nil]

theorem restrictUnder_cons_true {r : String} {e : FSEntry}
    (he : pathUnder r e.path = true) (fs : FS) :
    restrictUnder r (e :: fs) = e :: restrictUnder r fs := by
  unfold restrictUnder
  rw [List.filter_cons]
  simp [he]

theorem restrictUnder_cons_false {r : String} {e : FSEntry}
    (he : pathUnder r e.path = false) (fs : FS) :
    restrictUnder r (e :: fs) = restrictUnder r fs := by
  unfold restrictUnder
  rw [List.filter_cons]
  simp [he]

theorem removeAllFS_cons_under {b : String} {e : FSEntry}
    (hb : pathUnder b e.path = true) (fs : FS) :
    removeAllFS b (e :: fs) = removeAllFS b fs := by
  unfold removeAllFS
  rw [List.filter_cons]
  simp [hb]

theorem removeAllFS_cons_keep {b : String} {e : FSEntry}
    (hb : pathUnder b e.path = false) (fs : FS) :
    removeAllFS b (e :: fs) = e :: removeAllFS b fs := by
  unfold removeAllFS
  rw [List.filter_cons]
  simp [hb]

theorem bool_eq_false_of_ne_true {x : Bool} (h : ¬x = true) : x = false := by
  cases x with
  | true => exact absurd rfl h
  | false => rfl

theorem restrictUnder_filter_ne {r p : String} (h : pathUnder r p = false) :
    ∀ fs : FS, restrictUnder r (fs.filter fun e => e.path ≠ p) = restrictUnder r fs := by
  intro fs
  induction fs with
  | nil => rfl
  | cons e es ih =>
    by_cases hep : e.path = p
    · have hu : pathUnder r e.path = false := by rw [hep]; exact h
      have h1 : (e :: es).filter (fun e => e.path ≠ p) =
          es.filter (fun e => e.path ≠ p) := by
        rw [List.filter_cons]
        simp [hep]
      rw [h1, ih, restrictUnder_cons_false hu]
    · have h1 : (e :: es).filter (fun e => e.path ≠ p) =
          e :: es.filter (fun e => e.path ≠ p) := by
        rw [List.filter_cons]
        simp [hep]
      rw [h1]
      by_cases he : pathUnder r e.path = true
      · rw [restrictUnder_cons_true he, restrictUnder_cons_true he, ih]
      · have hf := bool_eq_false_of_ne_true he
        rw [restrictUnder_cons_false hf, restrictUnder_cons_false hf, ih]

theorem restrictUnder_createFile {r p : String} (h : pathUnder r p = false)
    (c : List Nat) (m : Nat) (fs : FS) :
    restrictUnder r (createFileFS p c m fs) = restrictUnder r fs := by
  unfold createFileFS
  rw [restrictUnder_append,
    restrictUnder_single_not (e := FSEntry.file p c m) h, List.append_nil]
  exact restrictUnder_filter_ne h fs

theorem restrictUnder_removeAll_self (r : String) (fs : FS) :
    restrictUnder r (removeAllFS r fs) = [] := by
  induction fs with
  | nil => rfl
  | cons e es ih =>
    by_cases he : pathUnder r e.path = true
    · rw [removeAllFS_cons_under he, ih]
    · have hf := bool_eq_false_of_ne_true he
      rw [removeAllFS_cons_keep hf, restrictUnder_cons_false hf, ih]

theorem restrictUnder_removeAll_other {a b : String}
    (hcross : ∀ q : String, pathUnder a q = true → pathUnder b q = false) :
    ∀ fs : FS, restrictUnder a (removeAllFS b fs) = restrictUnder a fs := by
  intro fs
  induction fs with
  | nil => rfl
  | cons e es ih =>
    by_cases ha : pathUnder a e.path = true
    · have hb : pathUnder b e.path = false := hcross e.path ha
      rw [removeAllFS_cons_keep hb, restrictUnder_cons_true ha,
        restrictUnder_cons_true ha, ih]
    · have haf := bool_eq_false_of_ne_true ha
      by_cases hb : pathUnder b e.path = true
      · rw [removeAllFS_cons_under hb, restrictUnder_cons_false haf, ih]
      · have hbf := bool_eq_false_of_ne_true hb
        rw [removeAllFS_cons_keep hbf, restrictUnder_cons_false haf,
          restrictUnder_cons_false haf, ih]

theorem untarTargets_dirEntry (dir n : String) (m : Nat) (rest : List TarEntry) :
    untarTargets dir (.dirEntry n m :: rest) =
      pathJoin [dir, n] :: untarTargets dir rest := rfl

theorem untarTargets_regEntry (dir n : String) (m : Nat) (c : List Nat)
    (rest : List TarEntry) :
    untarTargets dir (.regEntry n m c :: rest) =
      pathJoin [dir, n] :: untarTargets dir rest := rfl

theorem untarTargets_otherEntry (dir n : String) (rest : List TarEntry) :
    untarTargets dir (.otherEntry n :: rest) = untarTargets dir rest := rfl

/-- Extraction whose targets all avoid `a` leaves the filesystem under
`a` unchanged, also on every failure path. -/
theorem untarGo_restrict {a dir : String} (env : UntarEnv) (ceof : Bool) :
    ∀ (es : List TarEntry) (i : Nat) (fs : FS),
      (∀ tg ∈ untarTargets dir es, pathUnder a tg = false) →
      restrictUnder a (untarGo dir env ceof i es fs).2 = restrictUnder a fs := by
  intro es
  induction es with
  | nil =>
    intro i fs _
    by_cases hc : ceof <;> simp [untarGo, hc]
  | cons e tl ih =>
    intro i fs hT
    cases e with
    | dirEntry n m =>
      rw [untarTargets_dirEntry] at hT
      have htg : pathUnder a (pathJoin [dir, n]) = false :=
        hT _ (List.mem_cons_self _ _)
      have htl : ∀ tg ∈ untarTargets dir tl, pathUnder a tg = false :=
        fun tg h2 => hT tg (List.mem_cons_of_mem _ h2)
      by_cases hk : env.opOk i UntarOp.mkdirOp
      · have hstep :
            restrictUnder a (untarGo dir env ceof i (TarEntry.dirEntry n m :: tl) fs).2 =
            restrictUnder a
              (untarGo dir env ceof (i + 1) tl
                (mkdirAllFS (pathJoin [dir, n]) fs)).2 := by
          simp [untarGo, hk]
        rw [hstep, ih (i + 1) _ htl, restrictUnder_mkdirAll htg]
      · simp [untarGo, bool_eq_false_of_ne_true hk]
    | regEntry n m c =>
      rw [untarTargets_regEntry] at hT
      have htg : pathUnder a (pathJoin [dir, n]) = false :=
        hT _ (List.mem_cons_self _ _)
      have htl : ∀ tg ∈ untarTargets dir tl, pathUnder a tg = false :=
        fun tg h2 => hT tg (List.mem_cons_of_mem _ h2)
      by_cases k1 : env.opOk i UntarOp.openOp
      case neg => simp [untarGo, bool_eq_false_of_ne_true k1]
      case pos =>
      by_cases k2 : env.opOk i UntarOp.writeOp
      case neg =>
        have hstep :
            restrictUnder a (untarGo dir env ceof i (TarEntry.regEntry n m c :: tl) fs).2 =
            restrictUnder a (createFileFS (pathJoin [dir, n]) [] m fs) := by
          simp [untarGo, k1, bool_eq_false_of_ne_true k2]
        rw [hstep, restrictUnder_createFile htg]
      case pos =>
      by_cases k3 : env.opOk i UntarOp.closeOp
      case neg =>
        have hstep :
            restrictUnder a (untarGo dir env ceof i (TarEntry.regEntry n m c :: tl) fs).2 =
            restrictUnder a (createFileFS (pathJoin [dir, n]) c m fs) := by
          simp [untarGo, k1, k2, bool_eq_false_of_ne_true k3]
        rw [hstep, restrictUnder_createFile htg]
      case pos =>
        have hstep :
            restrictUnder a (untarGo dir env ceof i (TarEntry.regEntry n m c :: tl) fs).2 =
            restrictUnder a
              (untarGo dir env ceof (i + 1) tl
                (createFileFS (pathJoin [dir, n]) c m fs)).2 := by
          simp [untarGo, k1, k2, k3]
        rw [hstep, ih (i + 1) _ htl, restrictUnder_createFile htg]
    | otherEntry n =>
      rw [untarTargets_otherEntry] at hT
      have hstep : untarGo dir env ceof i (TarEntry.otherEntry n :: tl) fs =
          untarGo dir env ceof (i + 1) tl fs := rfl
      rw [hstep]
      exact ih (i + 1) fs hT

/-- `binary.Fetch` writes only `path.Join(tempDir, executable)`; any
root avoiding that path sees no change, on success or failure. -/
theorem binaryFetch_restrict {a : String} (bf : Binary.Fetcher)
    (params : List (String × String)) (tempDir exe : String) (env : Binary.Env)
    (fs : FS) (h : pathUnder a (pathJoin [tempDir, exe]) = false) :
    restrictUnder a (Binary.Fetch bf params tempDir exe env fs).2.1 =
      restrictUnder a fs := by
  unfold Binary.Fetch
  cases hx : ExpandTemplate bf.url params with
  | error e => rfl
  | ok u =>
    by_cases ho : env.openOk
    case neg => simp [bool_eq_false_of_ne_true ho]
    case pos =>
    simp only [ho, Bool.not_true, Bool.false_eq_true, if_false]
    cases env.httpResult with
    | transportError =>
      dsimp only
      exact restrictUnder_createFile h [] 493 fs
    | response r =>
      by_cases hc : env.copyOk
      case neg =>
        simp only [bool_eq_false_of_ne_true hc, Bool.not_false, if_true]
        exact restrictUnder_createFile h [] 493 fs
      case pos =>
      simp only [hc, Bool.not_true, Bool.false_eq_true, if_false]
      by_cases hk : env.closeOk
      case neg =>
        simp only [bool_eq_false_of_ne_true hk, Bool.not_false, if_true]
        rw [restrictUnder_createFile h r.body 493 _,
          restrictUnder_createFile h [] 493 fs]
      case pos =>
        simp only [hk, Bool.not_true, Bool.false_eq_true, if_false]
        rw [restrictUnder_createFile h r.body 493 _,
          restrictUnder_createFile h [] 493 fs]

/-- `tarball.Fetch` writes only the extraction targets; any root all of
them avoid sees no change, on success or failure. -/
theorem tarballFetch_restrict {a : String} (tf : Tarball.Fetcher)
    (params : List (String × String)) (tempDir : String) (env : Tarball.Env)
    (fs : FS)
    (h : ∀ s, env.gzipResult = some s →
      ∀ tg ∈ untarTargets tempDir s.entries, pathUnder a tg = false) :
    restrictUnder a (Tarball.Fetch tf params tempDir env fs).2.1 =
      restrictUnder a fs := by
  unfold Tarball.Fetch
  cases hx : ExpandTemplate tf.url params with
  | error e => rfl
  | ok u =>
    cases hr : env.httpResult with
    | transportError => rfl
    | response r =>
      cases hg : env.gzipResult with
      | none => rfl
      | some s =>
        dsimp only
        exact untarGo_restrict env.untarEnv s.cleanEOF s.entries 0 fs (h s hg)

/-! ## Claim C7 -/

/-- C7 counterexample: a gzipped archive holding a directory entry named
`../v1.2.3` escapes the temporary directory through `path.Join`'s
cleaning — `untar` creates `versionDir` itself — and the subsequent tar
decode error makes the fetch fail.  Starting from a filesystem with
nothing under `versionDir`, the failed fetch leaves `versionDir`
existing (partially written): the deferred removal of the temporary
directory does not reach it. -/
theorem C7_escape_counterexample :
    restrictUnder sampleCfg.versionedCacheDir ([] : FS) = [] ∧
    (fetcherRun tarOnlyTemplate sampleCfg evilFetchEnv []).1 =
      Except.error Err.tarReadErr ∧
    FSEntry.dir sampleCfg.versionedCacheDir ∈
      (fetcherRun tarOnlyTemplate sampleCfg evilFetchEnv []).2.1 := by
  refine ⟨rfl, by decide, by decide⟩

/-- C7 (amended): provided no archive entry's extraction target escapes
the temporary directory (and with the standard freshness/separation of
the `MkdirTemp` name — the version directory, cache root and temporary
directory do not lie inside one another), a fetch that fails at any step
after temporary-directory creation leaves the filesystem under
`versionDir` exactly as it was and nothing under the temporary
directory remains. -/
theorem C7_failure_cleanup (t : ExecTemplate) (cfg : ConfigResult)
    (env : FetchEnv) (fs : FS) (sfx tempDir : String)
    (hsfx : env.tempSuffix = some sfx)
    (htd : tempDir = cfg.execCacheDir ++ "/" ++ cfg.directory ++ sfx)
    (hfresh : restrictUnder tempDir fs = [])
    (hsepVT : pathUnder cfg.versionedCacheDir tempDir = false)
    (hsepTV : pathUnder tempDir cfg.versionedCacheDir = false)
    (hsepVE : pathUnder cfg.versionedCacheDir cfg.execCacheDir = false)
    (htar : ∀ s, env.tarballEnv.gzipResult = some s →
      tarTargetsUnder tempDir s = true)
    (hbin : pathUnder tempDir (pathJoin [tempDir, cfg.executableBase]) = true)
    (e : Err) (hfail : (fetcherRun t cfg env fs).1 = Except.error e) :
    restrictUnder cfg.versionedCacheDir (fetcherRun t cfg env fs).2.1 =
      restrictUnder cfg.versionedCacheDir fs ∧
    restrictUnder tempDir (fetcherRun t cfg env fs).2.1 = [] := by
  have hcrossTV : ∀ q, pathUnder cfg.versionedCacheDir q = true →
      pathUnder tempDir q = false :=
    fun q hq => pathUnder_cross hsepTV hsepVT hq
  have hcrossVT : ∀ q, pathUnder tempDir q = true →
      pathUnder cfg.versionedCacheDir q = false :=
    fun q hq => pathUnder_cross hsepVT hsepTV hq
  have htarV : ∀ s, env.tarballEnv.gzipResult = some s →
      ∀ tg ∈ untarTargets tempDir s.entries,
        pathUnder cfg.versionedCacheDir tg = false := by
    intro s hs tg htg
    have hall := htar s hs
    unfold tarTargetsUnder at hall
    exact hcrossVT tg (List.all_eq_true.mp hall tg htg)
  have hbinV : pathUnder cfg.versionedCacheDir
      (pathJoin [tempDir, cfg.executableBase]) = false := hcrossVT _ hbin
  unfold fetcherRun at hfail ⊢
  by_cases hm : env.mkdirCacheOk
  case neg =>
    simp only [hm, Bool.not_false, if_true] at hfail ⊢
    exact ⟨trivial, hfresh⟩
  case pos =>
  simp only [hm, Bool.not_true, Bool.false_eq_true, if_false] at hfail ⊢
  rw [hsfx] at hfail ⊢
  dsimp only at hfail ⊢
  rw [← htd] at hfail ⊢
  cases ht : t.tarballFetcher with
  | some tf =>
    simp only [ht] at hfail ⊢
    rcases hstep : Tarball.Fetch tf t.params tempDir env.tarballEnv
        (mkdirAllFS tempDir (mkdirAllFS cfg.execCacheDir fs)) with ⟨res, fs2, evs⟩
    rw [hstep] at hfail
    have hfs2 : restrictUnder cfg.versionedCacheDir fs2 =
        restrictUnder cfg.versionedCacheDir
          (mkdirAllFS tempDir (mkdirAllFS cfg.execCacheDir fs)) := by
      have hres := tarballFetch_restrict tf t.params tempDir env.tarballEnv
        (mkdirAllFS tempDir (mkdirAllFS cfg.execCacheDir fs)) htarV
      rw [hstep] at hres
      exact hres
    have hfs1 : restrictUnder cfg.versionedCacheDir
        (mkdirAllFS tempDir (mkdirAllFS cfg.execCacheDir fs)) =
        restrictUnder cfg.versionedCacheDir fs := by
      rw [restrictUnder_mkdirAll hsepVT, restrictUnder_mkdirAll hsepVE]
    cases res with
    | error e2 =>
      dsimp only at hfail ⊢
      refine ⟨?_, restrictUnder_removeAll_self tempDir fs2⟩
      rw [restrictUnder_removeAll_other hcrossTV fs2, hfs2, hfs1]
    | ok v =>
      cases hro : env.renameOutcome with
      | renamed =>
        rw [hro] at hfail
        dsimp only at hfail
        cases hfail
      | failTargetExists =>
        rw [hro] at hfail
        dsimp only at hfail ⊢
        refine ⟨?_, restrictUnder_removeAll_self tempDir fs2⟩
        rw [restrictUnder_removeAll_other hcrossTV fs2, hfs2, hfs1]
      | failOther =>
        rw [hro] at hfail
        dsimp only at hfail ⊢
        refine ⟨?_, restrictUnder_removeAll_self tempDir fs2⟩
        rw [restrictUnder_removeAll_other hcrossTV fs2, hfs2, hfs1]
  | none =>
    cases hb : t.binaryFetcher with
    | some bf =>
      simp only [ht, hb] at hfail ⊢
      rcases hstep : Binary.Fetch bf t.params tempDir cfg.executableBase
          env.binaryEnv (mkdirAllFS tempDir (mkdirAllFS cfg.execCacheDir fs))
        with ⟨res, fs2, evs⟩
      rw [hstep] at hfail
      have hfs2 : restrictUnder cfg.versionedCacheDir fs2 =
          restrictUnder cfg.versionedCacheDir
            (mkdirAllFS tempDir (mkdirAllFS cfg.execCacheDir fs)) := by
        have hres := binaryFetch_restrict bf t.params tempDir cfg.executableBase
          env.binaryEnv (mkdirAllFS tempDir (mkdirAllFS cfg.execCacheDir fs)) hbinV
        rw [hstep] at hres
        exact hres
      have hfs1 : restrictUnder cfg.versionedCacheDir
          (mkdirAllFS tempDir (mkdirAllFS cfg.execCacheDir fs)) =
          restrictUnder cfg.versionedCacheDir fs := by
        rw [restrictUnder_mkdirAll hsepVT, restrictUnder_mkdirAll hsepVE]
      cases res with
      | error e2 =>
        dsimp only at hfail ⊢
        refine ⟨?_, restrictUnder_removeAll_self tempDir fs2⟩
        rw [restrictUnder_removeAll_other hcrossTV fs2, hfs2, hfs1]
      | ok v =>
        cases hro : env.renameOutcome with
        | renamed =>
          rw [hro] at hfail
          dsimp only at hfail
          cases hfail
        | failTargetExists =>
          rw [hro] at hfail
          dsimp only at hfail ⊢
          refine ⟨?_, restrictUnder_removeAll_self tempDir fs2⟩
          rw [restrictUnder_removeAll_other hcrossTV fs2, hfs2, hfs1]
        | failOther =>
          rw [hro] at hfail
          dsimp only at hfail ⊢
          refine ⟨?_, restrictUnder_removeAll_self tempDir fs2⟩
          rw [restrictUnder_removeAll_other hcrossTV fs2, hfs2, hfs1]
    | none =>
      simp only [ht, hb] at hfail ⊢
      refine ⟨?_, restrictUnder_removeAll_self tempDir _⟩
      rw [restrictUnder_removeAll_other hcrossTV _,
        restrictUnder_mkdirAll hsepVT, restrictUnder_mkdirAll hsepVE]

/-- C7 witness: a concrete failing fetch (lost rename race) with an
archive whose targets stay inside the temporary directory: the version
directory is untouched and the temporary directory is gone. -/
theorem C7_witness :
    restrictUnder sampleCfg.versionedCacheDir
        (fetcherRun tarOnlyTemplate sampleCfg raceEnv []).2.1 =
      restrictUnder sampleCfg.versionedCacheDir ([] : FS) ∧
    restrictUnder "/cache/polymorph/grep-like/v1.2.3XYZ"
        (fetcherRun tarOnlyTemplate sampleCfg raceEnv []).2.1 = [] :=
  C7_failure_cleanup tarOnlyTemplate sampleCfg raceEnv [] "XYZ"
    "/cache/polymorph/grep-like/v1.2.3XYZ" rfl (by decide) rfl (by decide)
    (by decide) (by decide) (by intro s hs; cases hs; decide) (by decide)
    Err.renameTargetExists (by decide)

end Polymorph
